import Mathlib

/-!
Shallow embedding of `src/main.py` (Bug Bounty Program Monitor).

The program polls JSON lists of bounty programs per platform, extracts each
program's target identifiers into a set, diffs against a persisted
per-platform snapshot, and emits change records.

Modelling conventions:
* JSON values are the inductive `JVal`; Python `dict`s appear as association
  lists with unique keys, with `dictGet` / `dictSet` mirroring `d.get(k)` and
  `d[k] = v`.
* Python truthiness (`if x:`, `a or b`) is `truthy`.
* A Python `set` of strings is a `Finset String`; the code only ever stores
  `list(s)` and immediately re-forms the set with `set(...)`, so the set is
  the faithful abstraction of the stored list.
* Code that can raise (attribute errors on non-dict records, JSON parse
  errors) is embedded in `Except Unit`.
-/

/-- A JSON value, as produced by Python's `json` module: numbers restricted to
integers, which covers every value this program ever persists or compares. -/
inductive JVal where
  | null : JVal
  | bool : Bool → JVal
  | num : Int → JVal
  | str : String → JVal
  | arr : List JVal → JVal
  | obj : List (String × JVal) → JVal
deriving Repr

mutual
/-- Boolean equality on JSON values (the derived handler does not support this
nested inductive, so it is spelled out). -/
def jvalBeq : JVal → JVal → Bool
  | .null, .null => true
  | .bool a, .bool b => a == b
  | .num a, .num b => a == b
  | .str a, .str b => a == b
  | .arr a, .arr b => jvalListBeq a b
  | .obj a, .obj b => jvalFieldsBeq a b
  | _, _ => false

def jvalListBeq : List JVal → List JVal → Bool
  | [], [] => true
  | a :: as, b :: bs => jvalBeq a b && jvalListBeq as bs
  | _, _ => false

def jvalFieldsBeq : List (String × JVal) → List (String × JVal) → Bool
  | [], [] => true
  | (k, v) :: as, (k', v') :: bs => k == k' && jvalBeq v v' && jvalFieldsBeq as bs
  | _, _ => false
end

theorem jvalBeq_iff_eq : ∀ (a b : JVal), jvalBeq a b = true ↔ a = b := by
  have H : ∀ n, ∀ (a b : JVal), sizeOf a ≤ n → (jvalBeq a b = true ↔ a = b) := by
    intro n
    induction n with
    | zero =>
      intro a b ha
      cases a <;> simp at ha
    | succ n ih =>
      have hlist : ∀ (xs ys : List JVal), sizeOf xs ≤ n + 1 →
          (jvalListBeq xs ys = true ↔ xs = ys) := by
        intro xs
        induction xs with
        | nil => intro ys _; cases ys <;> simp [jvalListBeq]
        | cons x xs ihx =>
          intro ys hs
          cases ys with
          | nil => simp [jvalListBeq]
          | cons y ys =>
            have hx : sizeOf x ≤ n := by simp at hs; omega
            have hxs : sizeOf xs ≤ n + 1 := by simp at hs; omega
            simp [jvalListBeq, ih x y hx, ihx ys hxs]
      have hfields : ∀ (xs ys : List (String × JVal)), sizeOf xs ≤ n + 1 →
          (jvalFieldsBeq xs ys = true ↔ xs = ys) := by
        intro xs
        induction xs with
        | nil => intro ys _; cases ys <;> simp [jvalFieldsBeq]
        | cons kv xs ihx =>
          intro ys hs
          cases ys with
          | nil => simp [jvalFieldsBeq]
          | cons kv' ys =>
            obtain ⟨k, v⟩ := kv
            obtain ⟨k', v'⟩ := kv'
            have hv : sizeOf v ≤ n := by simp at hs; omega
            have hxs : sizeOf xs ≤ n + 1 := by simp at hs; omega
            simp [jvalFieldsBeq, ih v v' hv, ihx ys hxs, and_assoc]
      intro a b ha
      cases a <;> cases b <;> simp [jvalBeq]
      case arr.arr xs ys =>
        exact hlist xs ys (by simp at ha; omega)
      case obj.obj xs ys =>
        exact hfields xs ys (by simp at ha; omega)
  intro a b
  exact H (sizeOf a) a b le_rfl

instance : DecidableEq JVal :=
  fun a b => decidable_of_iff (jvalBeq a b = true) (jvalBeq_iff_eq a b)

/-- Python `d.get(k)` / `k in d` on an association-list dict (keys unique). -/
def dictGet {κ α : Type} [DecidableEq κ] : List (κ × α) → κ → Option α
  | [], _ => none
  | (k', v) :: rest, k => if k' = k then some v else dictGet rest k

/-- Python `d[k] = v`: overwrite in place if the key exists, else append. -/
def dictSet {κ α : Type} [DecidableEq κ] : List (κ × α) → κ → α → List (κ × α)
  | [], k, v => [(k, v)]
  | (k', v') :: rest, k, v =>
      if k' = k then (k, v) :: rest else (k', v') :: dictSet rest k v

/-- Python truthiness of a JSON value: `None`, `False`, `0`, `""`, `[]` and
`{}` are falsy, everything else truthy. -/
def truthy : JVal → Bool
  | .null => false
  | .bool b => b
  | .num n => n != 0
  | .str s => s != ""
  | .arr xs => !xs.isEmpty
  | .obj fs => !fs.isEmpty

/-- `d.get(k)` filtered through Python truthiness: the building block of the
`d.get(a) or d.get(b) or ...` idiom, which yields the first truthy value. -/
def getTruthy (fields : List (String × JVal)) (k : String) : Option JVal :=
  match dictGet fields k with
  | some v => if truthy v then some v else none
  | none => none

mutual
/-- Python `str(v)` on a JSON value.  Scalars are exact; the `repr` used for
elements of containers follows CPython's single-quote convention (escape
sequences elided — no persisted value and no claim exercises container
coercion). -/
def pyStr : JVal → String
  | .null => "None"
  | .bool true => "True"
  | .bool false => "False"
  | .num n => toString n
  | .str s => s
  | .arr xs => "[" ++ String.intercalate ", " (pyReprList xs) ++ "]"
  | .obj fs => "\x7b" ++ String.intercalate ", " (pyReprFields fs) ++ "\x7d"

/-- Python `repr(v)`, as used for container elements inside `str(...)`. -/
def pyRepr : JVal → String
  | .str s => "'" ++ s ++ "'"
  | .null => "None"
  | .bool true => "True"
  | .bool false => "False"
  | .num n => toString n
  | .arr xs => "[" ++ String.intercalate ", " (pyReprList xs) ++ "]"
  | .obj fs => "\x7b" ++ String.intercalate ", " (pyReprFields fs) ++ "\x7d"

def pyReprList : List JVal → List String
  | [] => []
  | x :: xs => pyRepr x :: pyReprList xs

def pyReprFields : List (String × JVal) → List String
  | [] => []
  | (k, v) :: fs => ("'" ++ k ++ "': " ++ pyRepr v) :: pyReprFields fs
end

/-- One item inside a `targets` list (`main.py` lines 57–63 / 65–71): a dict
yields `str` of the first truthy of `target`, `endpoint`, `asset_identifier`;
a string is used verbatim; anything else is skipped. -/
def extractItem (item : JVal) : Option String :=
  match item with
  | .obj fields =>
      match (getTruthy fields "target" <|> getTruthy fields "endpoint"
              <|> getTruthy fields "asset_identifier") with
      | some v => some (pyStr v)
      | none => none
  | .str s => some s
  | _ => none

/-- The identifiers collected from one list of target items. -/
def extractFromList (items : List JVal) : Finset String :=
  (items.filterMap extractItem).toFinset

/-- `BountyMonitor.extract_targets` (`main.py` lines 48–73): the program is a
dict; its `targets` value may be a dict of category → list, a flat list, or
anything else (ignored). -/
def extract_targets (program : List (String × JVal)) : Finset String :=
  match dictGet program "targets" with
  | some (.obj cats) =>
      cats.foldl
        (fun acc kv =>
          match kv.2 with
          | .arr items => acc ∪ extractFromList items
          | _ => acc)
        ∅
  | some (.arr items) => extractFromList items
  | _ => ∅

/-- A `TargetSet`: the deduplicated identifiers of one program. -/
abbrev TargetSet := Finset String

/-- A platform snapshot: the in-memory dict `{program_name: targets}`.  The
key is a `JVal` because `compare_programs` uses the raw resolved name (which
need not be a string) as the dict key; the stored `list(targets)` is
abstracted to its set, the only way the code ever reads it back. -/
abbrev Snapshot := List (JVal × TargetSet)

/-- The in-memory persisted state: dict `{platform: snapshot}`. -/
abbrev PState := List (String × Snapshot)

/-- One change dict appended to `changes` (`main.py` lines 98–104 and
108–115).  `new_program` is absent except in the new-program branch; since it
is only ever read with `change.get('new_program')`, absence is `false`. -/
structure ChangeRecord where
  platform : String
  program : JVal
  added : TargetSet
  removed : TargetSet
  url : JVal
  new_program : Bool
deriving DecidableEq

/-- `program.get('name') or program.get('handle') or program.get('program_name')`
combined with the `if not program_name: continue` guard: the first truthy
value among the three keys, if any (`main.py` lines 81–83). -/
def resolveName (program : List (String × JVal)) : Option JVal :=
  getTruthy program "name" <|> getTruthy program "handle" <|> getTruthy program "program_name"

/-- `program.get('url') or f"https://{platform}.com"` (`main.py` 103/113). -/
def programUrl (program : List (String × JVal)) (platform : String) : JVal :=
  (getTruthy program "url").getD (.str ("https://" ++ platform ++ ".com"))

/-- Python hashability of a JSON value: lists and dicts are unhashable, every
scalar is hashable.  Using an unhashable value as a dict key raises
`TypeError`. -/
def hashable : JVal → Bool
  | .arr _ => false
  | .obj _ => false
  | _ => true

/-- The body of the `for program in current_data` loop of `compare_programs`
(`main.py` lines 80–115) for one record: errors (`Except.error`) when the
record is not a dict (Python raises `AttributeError` at `program.get`), and
also when the resolved name is a truthy list or dict (Python raises
`TypeError` at the `current_state[program_name] = ...` assignment on line 86,
before any snapshot lookup, because the key is unhashable); otherwise returns
the optional change record and the updated `current_state`.  `prevPlat` is
`self.previous_state.get(platform)`, constant during the loop. -/
def processProgram (platform : String) (prevPlat : Option Snapshot) (st : Snapshot)
    (p : JVal) : Except Unit (Option ChangeRecord × Snapshot) :=
  match p with
  | .obj program =>
    match resolveName program with
    | none => .ok (none, st)
    | some nm =>
      if hashable nm then
        let cur := extract_targets program
        let st' := dictSet st nm cur
        match prevPlat with
        | some snap =>
          match dictGet snap nm with
          | some prevT =>
            let added := cur \ prevT
            let removed := prevT \ cur
            if added ≠ ∅ ∨ removed ≠ ∅ then
              .ok (some ⟨platform, nm, added, removed, programUrl program platform, false⟩, st')
            else
              .ok (none, st')
          | none =>
            if cur ≠ ∅ then
              .ok (some ⟨platform, nm, cur, ∅, programUrl program platform, true⟩, st')
            else
              .ok (none, st')
        | none => .ok (none, st')
      else .error ()
  | _ => .error ()

/-- The whole `for program in current_data` loop, threading `current_state`
and accumulating `changes` in order. -/
def goCompare (platform : String) (prevPlat : Option Snapshot) :
    List JVal → Snapshot → Except Unit (List ChangeRecord × Snapshot)
  | [], st => .ok ([], st)
  | p :: rest, st =>
    match processProgram platform prevPlat st p with
    | .error e => .error e
    | .ok (c?, st') =>
      match goCompare platform prevPlat rest st' with
      | .error e => .error e
      | .ok (chs, stF) => .ok (c?.toList ++ chs, stF)

/-- `BountyMonitor.compare_programs` (`main.py` lines 75–122): runs the loop
starting from an empty `current_state`, then replaces the platform's entry of
the state wholesale (lines 117–120: the `{}` pre-assignment for a missing
platform is immediately overwritten, so the net effect is one `d[k] = v`). -/
def compare_programs (prev : PState) (platform : String) (current_data : List JVal) :
    Except Unit (List ChangeRecord × PState) :=
  match goCompare platform (dictGet prev platform) current_data [] with
  | .error e => .error e
  | .ok (chs, snap) => .ok (chs, dictSet prev platform snap)

/-- `BountyMonitor.fetch_program_data` (`main.py` lines 37–46): any fetch
error yields `[]`; a successful fetch yields the decoded JSON array.  The
outcome of the HTTP call is the external input. -/
def fetch_program_data (outcome : Except Unit (List JVal)) : List JVal :=
  match outcome with
  | .error _ => []
  | .ok xs => xs

/-- `self.platforms` (`main.py` line 21). -/
def platforms : List String :=
  ["hackerone", "bugcrowd", "intigriti", "yeswehack", "hackenproof"]

/-- The state-affecting part of `BountyMonitor.run` (`main.py` lines 255–269):
for each platform in order, fetch; if the result is non-empty
(`if current_data:`), diff and thread the state; otherwise leave the state
untouched.  Notification sending does not touch the state and is omitted. -/
def runPlatforms (fetch : String → List JVal) :
    List String → PState → Except Unit (List ChangeRecord × PState)
  | [], st => .ok ([], st)
  | p :: rest, st =>
    let current_data := fetch p
    if current_data.isEmpty then
      runPlatforms fetch rest st
    else
      match compare_programs st p current_data with
      | .error e => .error e
      | .ok (chs, st') =>
        match runPlatforms fetch rest st' with
        | .error e => .error e
        | .ok (chsR, stF) => .ok (chs ++ chsR, stF)

/-- `BountyMonitor.run` over the fixed platform list, with the per-platform
fetch outcomes as external input. -/
def run (fetchOutcome : String → Except Unit (List JVal)) (st : PState) :
    Except Unit (List ChangeRecord × PState) :=
  runPlatforms (fun p => fetch_program_data (fetchOutcome p)) platforms st

/-- The resolved names of the records of one fetch, in order. -/
def resolvedNames (data : List JVal) : List JVal :=
  data.filterMap (fun p => match p with | .obj fields => resolveName fields | _ => none)

/-- The fields of the last record of `data` resolving to name `nm` (the
occurrence whose targets survive in the rebuilt snapshot). -/
def lastResolve (data : List JVal) (nm : JVal) : Option (List (String × JVal)) :=
  match data with
  | [] => none
  | p :: rest =>
    match lastResolve rest nm with
    | some fields => some fields
    | none =>
      match p with
      | .obj fields => if resolveName fields = some nm then some fields else none
      | _ => none

/-- Whitespace accepted between JSON tokens. -/
def jsonWs (c : Char) : Bool :=
  c == ' ' || c == '\n' || c == '\t' || c == '\r'

/-- Drop leading JSON whitespace. -/
def skipWs : List Char → List Char
  | [] => []
  | c :: cs => if jsonWs c then skipWs cs else c :: cs

/-- Greedily read decimal digits into `acc`. -/
def parseDigitsAux : List Char → Nat → Nat × List Char
  | [], acc => (acc, [])
  | c :: cs, acc =>
      if c.isDigit then parseDigitsAux cs (acc * 10 + (c.toNat - 48)) else (acc, c :: cs)

/-- Parse a JSON integer (the only numbers this program ever persists). -/
def parseNumber : List Char → Option (JVal × List Char)
  | '-' :: cs =>
      match cs with
      | c :: _ =>
          if c.isDigit then
            let r := parseDigitsAux cs 0
            some (.num (-(r.1 : Int)), r.2)
          else none
      | [] => none
  | cs =>
      match cs with
      | c :: _ =>
          if c.isDigit then
            let r := parseDigitsAux cs 0
            some (.num (r.1 : Int), r.2)
          else none
      | [] => none

/-- Value of one hexadecimal digit. -/
def hexVal (c : Char) : Option Nat :=
  if c.isDigit then some (c.toNat - 48)
  else if 'a' ≤ c && c ≤ 'f' then some (c.toNat - 87)
  else if 'A' ≤ c && c ≤ 'F' then some (c.toNat - 55)
  else none

/-- Parse the body of a JSON string after its opening quote, returning the
decoded characters and the remainder after the closing quote. -/
def parseStringBody : List Char → Option (List Char × List Char)
  | [] => none
  | '"' :: cs => some ([], cs)
  | '\\' :: 'u' :: a :: b :: c :: d :: cs =>
      match hexVal a, hexVal b, hexVal c, hexVal d with
      | some ha, some hb, some hc, some hd =>
          (parseStringBody cs).map
            (fun r => (Char.ofNat (((ha * 16 + hb) * 16 + hc) * 16 + hd) :: r.1, r.2))
      | _, _, _, _ => none
  | '\\' :: e :: cs =>
      let dec : Option Char :=
        if e = '"' then some '"'
        else if e = '\\' then some '\\'
        else if e = '/' then some '/'
        else if e = 'n' then some '\n'
        else if e = 't' then some '\t'
        else if e = 'r' then some '\r'
        else if e = 'b' then some (Char.ofNat 8)
        else if e = 'f' then some (Char.ofNat 12)
        else none
      match dec with
      | some ch => (parseStringBody cs).map (fun r => (ch :: r.1, r.2))
      | none => none
  | c :: cs =>
      if c.toNat < 32 then none
      else (parseStringBody cs).map (fun r => (c :: r.1, r.2))

mutual
/-- Recursive-descent JSON value parser (fuel-based), modelling Python
`json.loads` on the fragment this program persists (no floats). -/
def parseVal : Nat → List Char → Option (JVal × List Char)
  | 0, _ => none
  | fuel + 1, cs =>
    match skipWs cs with
    | [] => none
    | '"' :: cs' => (parseStringBody cs').map (fun r => (.str (String.mk r.1), r.2))
    | 't' :: 'r' :: 'u' :: 'e' :: cs' => some (.bool true, cs')
    | 'f' :: 'a' :: 'l' :: 's' :: 'e' :: cs' => some (.bool false, cs')
    | 'n' :: 'u' :: 'l' :: 'l' :: cs' => some (.null, cs')
    | '[' :: cs' =>
        match skipWs cs' with
        | ']' :: cs'' => some (.arr [], cs'')
        | cs'' =>
          match parseVal fuel cs'' with
          | none => none
          | some (v, rest) => parseArrRest fuel [v] rest
    | '\x7b' :: cs' =>
        match skipWs cs' with
        | '\x7d' :: cs'' => some (.obj [], cs'')
        | cs'' => parseObjMember fuel [] cs''
    | cs' => parseNumber cs'

/-- Parse the continuation of a JSON array after its first element. -/
def parseArrRest : Nat → List JVal → List Char → Option (JVal × List Char)
  | 0, _, _ => none
  | fuel + 1, acc, cs =>
    match skipWs cs with
    | ',' :: cs' =>
        match parseVal fuel cs' with
        | none => none
        | some (v, rest) => parseArrRest fuel (acc ++ [v]) rest
    | ']' :: cs' => some (.arr acc, cs')
    | _ => none

/-- Parse the members of a JSON object; duplicate keys follow `json.loads`
last-wins semantics via `dictSet`. -/
def parseObjMember : Nat → List (String × JVal) → List Char → Option (JVal × List Char)
  | 0, _, _ => none
  | fuel + 1, acc, cs =>
    match skipWs cs with
    | '"' :: cs' =>
      match parseStringBody cs' with
      | none => none
      | some (kcs, rest) =>
        match skipWs rest with
        | ':' :: rest' =>
          match parseVal fuel rest' with
          | none => none
          | some (v, rest2) =>
            match skipWs rest2 with
            | ',' :: rest3 => parseObjMember fuel (dictSet acc (String.mk kcs) v) rest3
            | '\x7d' :: rest3 => some (.obj (dictSet acc (String.mk kcs) v), rest3)
            | _ => none
        | _ => none
    | _ => none
end

/-- Python `json.load` on the file's full contents: parse one value and
require only whitespace after it; anything else raises (`Except.error`). -/
def json_loads (s : String) : Except Unit JVal :=
  match parseVal (s.length + 2) s.data with
  | some (v, rest) => if (skipWs rest).isEmpty then .ok v else .error ()
  | none => .error ()

/-- `BountyMonitor.load_state` (`main.py` lines 25–30): the state file is
modelled as `Option String` (its contents, when it exists).  If the file
exists its contents are parsed with no exception handling, so a parse error
propagates; if it does not exist, the empty dict is returned. -/
def load_state (file : Option String) : Except Unit JVal :=
  match file with
  | some contents => json_loads contents
  | none => .ok (.obj [])

deriving instance DecidableEq for Except

instance : DecidableEq (List ChangeRecord × PState) := instDecidableEqProd

/-- State effect of one loop iteration. -/
theorem processProgram_state (pl : String) (pp : Option Snapshot) (st : Snapshot) (p : JVal)
    (c? : Option ChangeRecord) (st' : Snapshot)
    (h : processProgram pl pp st p = .ok (c?, st')) :
    ∃ fields, p = .obj fields ∧
      ((∃ nm, resolveName fields = some nm ∧
          st' = dictSet st nm (extract_targets fields)) ∨
        (resolveName fields = none ∧ st' = st)) := by
  cases p with
  | obj fields =>
    refine ⟨fields, rfl, ?_⟩
    cases hn : resolveName fields with
    | none =>
      simp only [processProgram, hn] at h
      obtain ⟨h1, h2⟩ := Prod.mk.injEq .. ▸ Except.ok.inj h
      exact Or.inr ⟨rfl, h2.symm⟩
    | some nm =>
      refine Or.inl ⟨nm, rfl, ?_⟩
      simp only [processProgram, hn] at h
      cases hh : hashable nm with
      | false => rw [hh] at h; simp at h
      | true =>
        simp only [hh, if_true] at h
        cases pp with
        | none =>
          obtain ⟨h1, h2⟩ := Prod.mk.injEq .. ▸ Except.ok.inj h
          exact h2.symm
        | some snap =>
          cases hl : dictGet snap nm with
          | none =>
            simp only [hl] at h
            split at h <;>
            · obtain ⟨h1, h2⟩ := Prod.mk.injEq .. ▸ Except.ok.inj h
              exact h2.symm
          | some A =>
            simp only [hl] at h
            split at h <;>
            · obtain ⟨h1, h2⟩ := Prod.mk.injEq .. ▸ Except.ok.inj h
              exact h2.symm
  | null => simp [processProgram] at h
  | bool b => simp [processProgram] at h
  | num n => simp [processProgram] at h
  | str s => simp [processProgram] at h
  | arr xs => simp [processProgram] at h

/-- The snapshot a loop iteration produces does not depend on the prior
platform snapshot. -/
theorem processProgram_indep (pl : String) (pp pp' : Option Snapshot) (st : Snapshot) (p : JVal)
    (c? : Option ChangeRecord) (st' : Snapshot)
    (h : processProgram pl pp st p = .ok (c?, st')) :
    ∃ c2, processProgram pl pp' st p = .ok (c2, st') := by
  cases p with
  | obj fields =>
    cases hn : resolveName fields with
    | none =>
      simp only [processProgram, hn] at h ⊢
      obtain ⟨h1, h2⟩ := Prod.mk.injEq .. ▸ Except.ok.inj h
      exact ⟨none, by rw [h2]⟩
    | some nm =>
      simp only [processProgram, hn] at h ⊢
      cases hh : hashable nm with
      | false => rw [hh] at h; simp at h
      | true =>
      simp only [hh, if_true] at h ⊢
      have hst : st' = dictSet st nm (extract_targets fields) := by
        cases pp with
        | none =>
          obtain ⟨h1, h2⟩ := Prod.mk.injEq .. ▸ Except.ok.inj h
          exact h2.symm
        | some snap =>
          cases hl : dictGet snap nm with
          | none =>
            simp only [hl] at h
            split at h <;>
            · obtain ⟨h1, h2⟩ := Prod.mk.injEq .. ▸ Except.ok.inj h
              exact h2.symm
          | some A =>
            simp only [hl] at h
            split at h <;>
            · obtain ⟨h1, h2⟩ := Prod.mk.injEq .. ▸ Except.ok.inj h
              exact h2.symm
      subst hst
      cases pp' with
      | none => exact ⟨none, rfl⟩
      | some snap' =>
        cases hl' : dictGet snap' nm with
        | none =>
          by_cases hc : extract_targets fields ≠ ∅
          · exact ⟨_, by simp only [hl', if_pos hc]; rfl⟩
          · exact ⟨_, by simp only [hl', if_neg hc]; rfl⟩
        | some A' =>
          by_cases hc : extract_targets fields \ A' ≠ ∅ ∨ A' \ extract_targets fields ≠ ∅
          · exact ⟨_, by simp only [hl', if_pos hc]; rfl⟩
          · exact ⟨_, by simp only [hl', if_neg hc]; rfl⟩
  | null => simp [processProgram] at h
  | bool b => simp [processProgram] at h
  | num n => simp [processProgram] at h
  | str s => simp [processProgram] at h
  | arr xs => simp [processProgram] at h

/-- A record emitted for one program carries that program's resolved name. -/
theorem processProgram_record_name (pl : String) (pp : Option Snapshot) (st : Snapshot) (p : JVal)
    (r : ChangeRecord) (st' : Snapshot)
    (h : processProgram pl pp st p = .ok (some r, st')) :
    ∃ fields, p = .obj fields ∧ resolveName fields = some r.program := by
  cases p with
  | obj fields =>
    refine ⟨fields, rfl, ?_⟩
    cases hn : resolveName fields with
    | none =>
      simp only [processProgram, hn] at h
      obtain ⟨h1, h2⟩ := Prod.mk.injEq .. ▸ Except.ok.inj h
      cases h1
    | some nm =>
      simp only [processProgram, hn] at h
      cases hh : hashable nm with
      | false => rw [hh] at h; simp at h
      | true =>
      simp only [hh, if_true] at h
      cases pp with
      | none =>
        obtain ⟨h1, h2⟩ := Prod.mk.injEq .. ▸ Except.ok.inj h
        cases h1
      | some snap =>
        cases hl : dictGet snap nm with
        | none =>
          simp only [hl] at h
          split at h
          · obtain ⟨h1, h2⟩ := Prod.mk.injEq .. ▸ Except.ok.inj h
            cases Option.some.inj h1
            rfl
          · obtain ⟨h1, h2⟩ := Prod.mk.injEq .. ▸ Except.ok.inj h
            cases h1
        | some A =>
          simp only [hl] at h
          split at h
          · obtain ⟨h1, h2⟩ := Prod.mk.injEq .. ▸ Except.ok.inj h
            cases Option.some.inj h1
            rfl
          · obtain ⟨h1, h2⟩ := Prod.mk.injEq .. ▸ Except.ok.inj h
            cases h1
  | null => simp [processProgram] at h
  | bool b => simp [processProgram] at h
  | num n => simp [processProgram] at h
  | str s => simp [processProgram] at h
  | arr xs => simp [processProgram] at h

/-- C5 per-program core: an existing program whose current targets equal the
stored ones produces no record. -/
theorem processProgram_no_diff (pl : String) (snap st : Snapshot)
    (fields : List (String × JVal)) (nm : JVal)
    (hn : resolveName fields = some nm) (hh : hashable nm = true)
    (hl : dictGet snap nm = some (extract_targets fields)) :
    processProgram pl (some snap) st (.obj fields) =
      .ok (none, dictSet st nm (extract_targets fields)) := by
  simp only [processProgram, hn, hh, if_true, hl]
  rw [if_neg]
  simp

theorem dictGet_dictSet_self {κ α : Type} [DecidableEq κ] (d : List (κ × α)) (k : κ) (v : α) :
    dictGet (dictSet d k v) k = some v := by
  induction d with
  | nil => simp [dictGet, dictSet]
  | cons kv rest ih =>
    obtain ⟨k', v'⟩ := kv
    by_cases h : k' = k
    · subst h; simp [dictGet, dictSet]
    · simp [dictGet, dictSet, h, ih]

theorem dictGet_dictSet_ne {κ α : Type} [DecidableEq κ] (d : List (κ × α)) (k k' : κ) (v : α)
    (hne : k' ≠ k) : dictGet (dictSet d k' v) k = dictGet d k := by
  induction d with
  | nil => simp [dictGet, dictSet, hne]
  | cons kv rest ih =>
    obtain ⟨k0, v0⟩ := kv
    by_cases h : k0 = k'
    · subst h; simp [dictGet, dictSet, hne]
    · by_cases h2 : k0 = k
      · subst h2; simp [dictGet, dictSet, h]
      · simp [dictGet, dictSet, h, h2, ih]

theorem dictSet_dictSet {κ α : Type} [DecidableEq κ] (d : List (κ × α)) (k : κ) (v w : α) :
    dictSet (dictSet d k v) k w = dictSet d k w := by
  induction d with
  | nil => simp [dictSet]
  | cons kv rest ih =>
    obtain ⟨k', v'⟩ := kv
    by_cases h : k' = k
    · subst h; simp [dictSet]
    · simp [dictSet, h, ih]

theorem processProgram_none_no_change (pl : String) (st st' : Snapshot) (p : JVal)
    (c? : Option ChangeRecord)
    (h : processProgram pl none st p = .ok (c?, st')) : c? = none := by
  cases p with
  | obj fields =>
    cases hn : resolveName fields with
    | none =>
      simp only [processProgram, hn] at h
      obtain ⟨h1, -⟩ := Prod.mk.injEq .. ▸ Except.ok.inj h
      exact h1.symm
    | some nm =>
      simp only [processProgram, hn] at h
      cases hh : hashable nm with
      | false => rw [hh] at h; simp at h
      | true =>
        simp only [hh, if_true] at h
        obtain ⟨h1, -⟩ := Prod.mk.injEq .. ▸ Except.ok.inj h
        exact h1.symm
  | null => simp [processProgram] at h
  | bool b => simp [processProgram] at h
  | num n => simp [processProgram] at h
  | str s => simp [processProgram] at h
  | arr xs => simp [processProgram] at h

/-- A successful iteration implies the resolved name was hashable: an
unhashable (list or dict) name makes Python raise TypeError at the
`current_state[program_name]` assignment instead of completing. -/
theorem processProgram_ok_hashable (pl : String) (pp : Option Snapshot) (st : Snapshot)
    (fields : List (String × JVal)) (nm : JVal) (out : Option ChangeRecord × Snapshot)
    (h : processProgram pl pp st (.obj fields) = .ok out)
    (hn : resolveName fields = some nm) : hashable nm = true := by
  cases hh : hashable nm with
  | true => rfl
  | false => simp [processProgram, hn, hh] at h

/-- Inversion of one loop step. -/
theorem goCompare_cons_ok (pl : String) (pp : Option Snapshot) (p : JVal) (rest : List JVal)
    (st : Snapshot) (chs : List ChangeRecord) (stF : Snapshot)
    (h : goCompare pl pp (p :: rest) st = .ok (chs, stF)) :
    ∃ c? st' chs2, processProgram pl pp st p = .ok (c?, st') ∧
      goCompare pl pp rest st' = .ok (chs2, stF) ∧ chs = c?.toList ++ chs2 := by
  simp only [goCompare] at h
  cases hp : processProgram pl pp st p with
  | error e => rw [hp] at h; cases h
  | ok out =>
    obtain ⟨c?, st'⟩ := out
    rw [hp] at h
    simp only [] at h
    cases hg : goCompare pl pp rest st' with
    | error e => rw [hg] at h; cases h
    | ok out2 =>
      obtain ⟨chs2, stF2⟩ := out2
      rw [hg] at h
      obtain ⟨h1, h2⟩ := Prod.mk.injEq .. ▸ Except.ok.inj h
      subst h2
      exact ⟨c?, st', chs2, hp ▸ rfl, hg, h1.symm⟩

/-- When the platform is absent from prior state, the loop emits nothing. -/
theorem goCompare_none_changes (pl : String) :
    ∀ (data : List JVal) (st : Snapshot) (chs : List ChangeRecord) (stF : Snapshot),
      goCompare pl none data st = .ok (chs, stF) → chs = [] := by
  intro data
  induction data with
  | nil =>
    intro st chs stF h
    obtain ⟨h1, h2⟩ := Prod.mk.injEq .. ▸ Except.ok.inj h
    exact h1.symm
  | cons p rest ih =>
    intro st chs stF h
    obtain ⟨c?, st', chs2, hp, hg, hchs⟩ := goCompare_cons_ok _ _ _ _ _ _ _ h
    have hc := processProgram_none_no_change pl st st' p c? hp
    subst hc
    simpa [hchs] using ih st' chs2 stF hg

/-- Snapshot built by the loop: per key, the targets of the last record that
resolves to it, else whatever the starting snapshot held. -/
theorem goCompare_snapshot (pl : String) (pp : Option Snapshot) :
    ∀ (data : List JVal) (st0 : Snapshot) (chs : List ChangeRecord) (snap : Snapshot),
      goCompare pl pp data st0 = .ok (chs, snap) →
      ∀ nm, dictGet snap nm =
        (match lastResolve data nm with
          | some fields => some (extract_targets fields)
          | none => dictGet st0 nm) := by
  intro data
  induction data with
  | nil =>
    intro st0 chs snap h nm
    obtain ⟨h1, h2⟩ := Prod.mk.injEq .. ▸ Except.ok.inj h
    subst h2
    simp [lastResolve]
  | cons p rest ih =>
    intro st0 chs snap h nm
    obtain ⟨c?, st', chs2, hp, hg, hchs⟩ := goCompare_cons_ok _ _ _ _ _ _ _ h
    have hrest := ih st' chs2 snap hg nm
    obtain ⟨fields, rfl, hcase⟩ := processProgram_state _ _ _ _ _ _ hp
    cases hlr : lastResolve rest nm with
    | some f =>
      simp only [lastResolve, hlr] at hrest ⊢
      exact hrest
    | none =>
      simp only [lastResolve, hlr] at hrest ⊢
      rcases hcase with ⟨nm0, hn0, hst'⟩ | ⟨hn0, hst'⟩
      · subst hst'
        by_cases he : nm0 = nm
        · subst he
          rw [hrest, dictGet_dictSet_self, hn0]
          simp
        · rw [hrest, dictGet_dictSet_ne _ _ _ _ he, hn0]
          simp only [Option.some.injEq]
          rw [if_neg he]
      · subst hst'
        rw [hrest, hn0]
        simp

theorem processProgram_obj_ok (pl : String) (pp : Option Snapshot) (st : Snapshot)
    (fields : List (String × JVal))
    (hhash : ∀ nm, resolveName fields = some nm → hashable nm = true) :
    ∃ out, processProgram pl pp st (.obj fields) = .ok out := by
  cases hn : resolveName fields with
  | none => exact ⟨(none, st), by simp [processProgram, hn]⟩
  | some nm =>
    have hh := hhash nm hn
    cases pp with
    | none =>
      exact ⟨(none, dictSet st nm (extract_targets fields)),
        by simp [processProgram, hn, hh]⟩
    | some snap =>
      cases hl : dictGet snap nm with
      | none =>
        by_cases h : extract_targets fields ≠ ∅
        · exact ⟨_, by simp only [processProgram, hn, hh, if_true, hl, if_pos h]; rfl⟩
        · exact ⟨_, by simp only [processProgram, hn, hh, if_true, hl, if_neg h]; rfl⟩
      | some A =>
        by_cases h : extract_targets fields \ A ≠ ∅ ∨ A \ extract_targets fields ≠ ∅
        · exact ⟨_, by simp only [processProgram, hn, hh, if_true, hl, if_pos h]; rfl⟩
        · exact ⟨_, by simp only [processProgram, hn, hh, if_true, hl, if_neg h]; rfl⟩

theorem processProgram_ok_obj (pl : String) (pp : Option Snapshot) (st : Snapshot) (p : JVal)
    (out : Option ChangeRecord × Snapshot)
    (h : processProgram pl pp st p = .ok out) : ∃ fields, p = .obj fields := by
  cases p <;> simp [processProgram] at h
  exact ⟨_, rfl⟩

theorem goCompare_ok_of_objs (pl : String) (pp : Option Snapshot) :
    ∀ (data : List JVal) (st : Snapshot),
      (∀ p ∈ data, ∃ fields, p = .obj fields) →
      (∀ fields nm, (JVal.obj fields) ∈ data → resolveName fields = some nm →
        hashable nm = true) →
      ∃ out, goCompare pl pp data st = .ok out := by
  intro data
  induction data with
  | nil => intro st _ _; exact ⟨([], st), rfl⟩
  | cons p rest ih =>
    intro st hobj hhash
    obtain ⟨fields, rfl⟩ := hobj (p := p) (List.mem_cons_self ..)
    obtain ⟨⟨c?, st'⟩, hp⟩ := processProgram_obj_ok pl pp st fields
      (fun nm hn => hhash fields nm (List.mem_cons_self ..) hn)
    obtain ⟨⟨chs, stF⟩, hg⟩ := ih st' (fun q hq => hobj q (List.mem_cons_of_mem _ hq))
      (fun f nm hf hn => hhash f nm (List.mem_cons_of_mem _ hf) hn)
    exact ⟨(c?.toList ++ chs, stF), by simp [goCompare, hp, hg]⟩

/-- A successful loop run means every resolved name in the data is
hashable. -/
theorem goCompare_ok_hashable (pl : String) (pp : Option Snapshot) :
    ∀ (data : List JVal) (st : Snapshot) (out : List ChangeRecord × Snapshot),
      goCompare pl pp data st = .ok out →
      ∀ fields nm, (JVal.obj fields) ∈ data → resolveName fields = some nm →
        hashable nm = true := by
  intro data
  induction data with
  | nil => intro st out _ fields nm hf _; cases hf
  | cons q rest ih =>
    intro st out h fields nm hf hn
    obtain ⟨c?, st', chs2, hq, hg, -⟩ := goCompare_cons_ok _ _ _ _ _ _ _ h
    rcases List.mem_cons.mp hf with heq | hmem
    · rw [← heq] at hq
      exact processProgram_ok_hashable pl pp st fields nm (c?, st') hq hn
    · exact ih st' (chs2, _) hg fields nm hmem hn

/-- Converse: a successful loop run means every record was a dict. -/
theorem goCompare_ok_objs (pl : String) (pp : Option Snapshot) :
    ∀ (data : List JVal) (st : Snapshot) (out : List ChangeRecord × Snapshot),
      goCompare pl pp data st = .ok out →
      ∀ p ∈ data, ∃ fields, p = .obj fields := by
  intro data
  induction data with
  | nil => intro st out _ p hp; cases hp
  | cons q rest ih =>
    intro st out h p hp
    obtain ⟨c?, st', chs2, hq, hg, -⟩ := goCompare_cons_ok _ _ _ _ _ _ _ h
    rcases List.mem_cons.mp hp with rfl | hmem
    · exact processProgram_ok_obj _ _ _ _ _ hq
    · exact ih st' (chs2, _) hg p hmem

/-- Change lists aside, the final snapshot is independent of the prior
platform snapshot. -/
theorem goCompare_indep (pl : String) (pp pp' : Option Snapshot) :
    ∀ (data : List JVal) (st : Snapshot) (chs : List ChangeRecord) (stF : Snapshot),
      goCompare pl pp data st = .ok (chs, stF) →
      ∃ chs', goCompare pl pp' data st = .ok (chs', stF) := by
  intro data
  induction data with
  | nil =>
    intro st chs stF h
    obtain ⟨h1, h2⟩ := Prod.mk.injEq .. ▸ Except.ok.inj h
    subst h2
    exact ⟨[], rfl⟩
  | cons p rest ih =>
    intro st chs stF h
    obtain ⟨c?, st', chs2, hp, hg, -⟩ := goCompare_cons_ok _ _ _ _ _ _ _ h
    obtain ⟨c2, hp'⟩ := processProgram_indep pl pp pp' st p c? st' hp
    obtain ⟨chs', hg'⟩ := ih st' chs2 stF hg
    exact ⟨c2.toList ++ chs', by simp [goCompare, hp', hg']⟩

/-- Every emitted record's program name comes from the current data. -/
theorem goCompare_record_names (pl : String) (pp : Option Snapshot) :
    ∀ (data : List JVal) (st : Snapshot) (chs : List ChangeRecord) (stF : Snapshot),
      goCompare pl pp data st = .ok (chs, stF) →
      ∀ r ∈ chs, r.program ∈ resolvedNames data := by
  intro data
  induction data with
  | nil =>
    intro st chs stF h r hr
    obtain ⟨h1, h2⟩ := Prod.mk.injEq .. ▸ Except.ok.inj h
    subst h1
    cases hr
  | cons p rest ih =>
    intro st chs stF h r hr
    obtain ⟨c?, st', chs2, hp, hg, hchs⟩ := goCompare_cons_ok _ _ _ _ _ _ _ h
    subst hchs
    rcases List.mem_append.mp hr with hr1 | hr2
    · cases c? with
      | none => cases hr1
      | some r0 =>
        obtain rfl : r = r0 := by simpa using hr1
        obtain ⟨fields, rfl, hname⟩ := processProgram_record_name _ _ _ _ _ _ hp
        simp [resolvedNames, List.filterMap_cons, hname]
    · have := ih st' chs2 stF hg r hr2
      cases p with
      | obj f =>
        simp only [resolvedNames, List.filterMap_cons] at this ⊢
        cases hf : resolveName f <;> simp [hf] at this ⊢ <;> try exact this
        · exact Or.inr this
      | null => simpa [resolvedNames, List.filterMap_cons] using this
      | bool b => simpa [resolvedNames, List.filterMap_cons] using this
      | num n => simpa [resolvedNames, List.filterMap_cons] using this
      | str s => simpa [resolvedNames, List.filterMap_cons] using this
      | arr xs => simpa [resolvedNames, List.filterMap_cons] using this

/-- Second run against a snapshot that already stores every program's current
targets: no record is emitted. -/
theorem goCompare_second_run (pl : String) (snap : Snapshot) :
    ∀ (data : List JVal) (st0 : Snapshot),
      (∀ p ∈ data, ∃ fields, p = .obj fields) →
      (∀ fields nm, (JVal.obj fields) ∈ data → resolveName fields = some nm →
        hashable nm = true) →
      (∀ fields nm, (JVal.obj fields) ∈ data → resolveName fields = some nm →
        dictGet snap nm = some (extract_targets fields)) →
      ∃ snapOut, goCompare pl (some snap) data st0 = .ok ([], snapOut) := by
  intro data
  induction data with
  | nil => intro st0 _ _ _; exact ⟨st0, rfl⟩
  | cons p rest ih =>
    intro st0 hobj hhash hsnap
    obtain ⟨fields, rfl⟩ := hobj p (List.mem_cons_self ..)
    cases hn : resolveName fields with
    | none =>
      have hp : processProgram pl (some snap) st0 (.obj fields) = .ok (none, st0) := by
        simp [processProgram, hn]
      obtain ⟨snapOut, hg⟩ := ih st0 (fun q hq => hobj q (List.mem_cons_of_mem _ hq))
        (fun f nm hf hnm => hhash f nm (List.mem_cons_of_mem _ hf) hnm)
        (fun f nm hf hnm => hsnap f nm (List.mem_cons_of_mem _ hf) hnm)
      exact ⟨snapOut, by simp [goCompare, hp, hg]⟩
    | some nm =>
      have hl := hsnap fields nm (List.mem_cons_self ..) hn
      have hp := processProgram_no_diff pl snap st0 fields nm hn
        (hhash fields nm (List.mem_cons_self ..) hn) hl
      obtain ⟨snapOut, hg⟩ := ih (dictSet st0 nm (extract_targets fields))
        (fun q hq => hobj q (List.mem_cons_of_mem _ hq))
        (fun f nm' hf hnm => hhash f nm' (List.mem_cons_of_mem _ hf) hnm)
        (fun f nm' hf hnm => hsnap f nm' (List.mem_cons_of_mem _ hf) hnm)
      exact ⟨snapOut, by simp [goCompare, hp, hg]⟩

/-- A name that no record resolves to is not in `lastResolve`. -/
theorem lastResolve_eq_none (nm : JVal) :
    ∀ (data : List JVal), nm ∉ resolvedNames data → lastResolve data nm = none := by
  intro data
  induction data with
  | nil => intro _; rfl
  | cons p rest ih =>
    intro hnm
    have hrest : nm ∉ resolvedNames rest := by
      intro hc
      apply hnm
      cases p <;> simp only [resolvedNames, List.filterMap_cons] at * <;>
        first
          | exact hc
          | (cases hf : resolveName _ <;> simp [hf] <;> simp [hf] at hc ⊢ <;> tauto)
    simp only [lastResolve, ih hrest]
    cases p <;> try rfl
    case obj fields =>
      cases hf : resolveName fields with
      | none => simp [hf]
      | some nm0 =>
        have hne : nm0 ≠ nm := by
          intro he
          subst he
          exact absurd (by simp [resolvedNames, List.filterMap_cons, hf]) hnm
        simp [hf, hne]

/-- With pairwise-distinct resolved names, `lastResolve` finds exactly the
unique record bearing each name. -/
theorem lastResolve_of_nodup :
    ∀ (data : List JVal) (fields : List (String × JVal)) (nm : JVal),
      (resolvedNames data).Nodup → (JVal.obj fields) ∈ data →
      resolveName fields = some nm →
      lastResolve data nm = some fields := by
  intro data
  induction data with
  | nil => intro fields nm _ hmem; cases hmem
  | cons p rest ih =>
    intro fields nm hnd hmem hn
    rcases List.mem_cons.mp hmem with rfl | hmem2
    · have hhead : nm ∉ resolvedNames rest := by
        simp only [resolvedNames, List.filterMap_cons, hn] at hnd
        exact (List.nodup_cons.mp hnd).1
      simp only [lastResolve, lastResolve_eq_none nm rest hhead, hn]
      simp
    · have hrestnd : (resolvedNames rest).Nodup := by
        cases p with
        | obj f =>
          simp only [resolvedNames, List.filterMap_cons] at hnd
          cases hf : resolveName f with
          | none => rw [hf] at hnd; exact hnd
          | some b => rw [hf] at hnd; exact (List.nodup_cons.mp hnd).2
        | null => simpa [resolvedNames, List.filterMap_cons] using hnd
        | bool b => simpa [resolvedNames, List.filterMap_cons] using hnd
        | num n => simpa [resolvedNames, List.filterMap_cons] using hnd
        | str s => simpa [resolvedNames, List.filterMap_cons] using hnd
        | arr xs => simpa [resolvedNames, List.filterMap_cons] using hnd
      simp only [lastResolve, ih fields nm hrestnd hmem2 hn]

/-- `compare_programs` only rewrites the processed platform's entry. -/
theorem compare_programs_state (prev : PState) (pl : String) (data : List JVal)
    (chs : List ChangeRecord) (st' : PState)
    (h : compare_programs prev pl data = .ok (chs, st')) :
    ∃ snap, st' = dictSet prev pl snap := by
  unfold compare_programs at h
  cases hg : goCompare pl (dictGet prev pl) data [] with
  | error e => rw [hg] at h; cases h
  | ok out =>
    obtain ⟨chsA, snap⟩ := out
    rw [hg] at h
    simp only [] at h
    obtain ⟨h1, h2⟩ := Prod.mk.injEq .. ▸ Except.ok.inj h
    exact ⟨snap, h2.symm⟩

/-- Platforms whose fetch came back empty keep their state entry through a
whole run, whatever happens on the other platforms. -/
theorem runPlatforms_frame (fetch : String → List JVal) (p : String)
    (hfp : fetch p = []) :
    ∀ (ps : List String) (st : PState) (chs : List ChangeRecord) (stF : PState),
      runPlatforms fetch ps st = .ok (chs, stF) → dictGet stF p = dictGet st p := by
  intro ps
  induction ps with
  | nil =>
    intro st chs stF h
    obtain ⟨h1, h2⟩ := Prod.mk.injEq .. ▸ Except.ok.inj h
    rw [h2]
  | cons q rest ih =>
    intro st chs stF h
    simp only [runPlatforms] at h
    by_cases hq : (fetch q).isEmpty
    · rw [if_pos hq] at h
      exact ih st chs stF h
    · rw [if_neg hq] at h
      cases hc : compare_programs st q (fetch q) with
      | error e => rw [hc] at h; cases h
      | ok out =>
        obtain ⟨chs1, st1⟩ := out
        rw [hc] at h
        simp only [] at h
        cases hr : runPlatforms fetch rest st1 with
        | error e => rw [hr] at h; cases h
        | ok out2 =>
          obtain ⟨chs2, stF2⟩ := out2
          rw [hr] at h
          obtain ⟨h1, h2⟩ := Prod.mk.injEq .. ▸ Except.ok.inj h
          subst h2
          have hqp : q ≠ p := by
            intro he
            subst he
            rw [hfp] at hq
            exact hq rfl
          obtain ⟨snap, hst1⟩ := compare_programs_state st q (fetch q) chs1 st1 hc
          calc dictGet stF2 p = dictGet st1 p := ih st1 chs2 stF2 hr
            _ = dictGet st p := by rw [hst1]; exact dictGet_dictSet_ne _ _ _ _ hqp
/-- C1 (amended): a platform entirely absent from the prior state produces no
ChangeRecord at all (first-run baseline); the new-program record
(`new_program = true`, `added` = all current identifiers, `removed` = empty)
is emitted exactly when the platform has a prior entry whose snapshot lacks
the resolved program name, the name is hashable, and the current TargetSet is
non-empty — a truthy list or dict name instead raises TypeError at the
`current_state[program_name]` assignment; with a prior state holding an empty
hackerone snapshot, the Acme scenario yields exactly one such record. -/
theorem c1_new_program_records :
    (∀ (prev : PState) (pl : String) (data : List JVal)
        (chs : List ChangeRecord) (st' : PState),
      dictGet prev pl = none → compare_programs prev pl data = .ok (chs, st') →
      chs = [])
    ∧ (∀ (pl : String) (snap st : Snapshot) (fields : List (String × JVal)) (nm : JVal),
      resolveName fields = some nm → hashable nm = true → dictGet snap nm = none →
      extract_targets fields ≠ ∅ →
      processProgram pl (some snap) st (.obj fields) =
        .ok (some ⟨pl, nm, extract_targets fields, ∅, programUrl fields pl, true⟩,
             dictSet st nm (extract_targets fields)))
    ∧ (∀ (pl : String) (pp : Option Snapshot) (st : Snapshot)
        (fields : List (String × JVal)) (nm : JVal),
      resolveName fields = some nm → hashable nm = false →
      processProgram pl pp st (.obj fields) = .error ())
    ∧ compare_programs [("hackerone", [])] "hackerone"
        [.obj [("name", .str "Acme"), ("targets", .arr [.str "a.com", .str "b.com"])]] =
      .ok ([⟨"hackerone", .str "Acme", {"a.com", "b.com"}, ∅,
              .str "https://hackerone.com", true⟩],
           [("hackerone", [(.str "Acme", {"a.com", "b.com"})])]) := by
  refine ⟨?_, ?_, ?_, by decide⟩
  · intro prev pl data chs st' habs h
    unfold compare_programs at h
    rw [habs] at h
    cases hg : goCompare pl none data [] with
    | error e => rw [hg] at h; cases h
    | ok out =>
      obtain ⟨chsA, snap⟩ := out
      rw [hg] at h
      simp only [] at h
      obtain ⟨h1, -⟩ := Prod.mk.injEq .. ▸ Except.ok.inj h
      rw [← h1]
      exact goCompare_none_changes pl data [] chsA snap hg
  · intro pl snap st fields nm hn hh hl hcur
    simp only [processProgram, hn, hh, if_true, hl, if_pos hcur]
  · intro pl pp st fields nm hn hh
    simp [processProgram, hn, hh]

/-- C1 counterexample: with platform hackerone, prior state `{}` (empty
mapping) and current data `[{name: Acme, targets: [a.com, b.com]}]`,
`compare_programs` emits zero ChangeRecords, not the one new-program record
the claim requires. -/
theorem c1_claim_counterexample :
    compare_programs [] "hackerone"
      [.obj [("name", .str "Acme"), ("targets", .arr [.str "a.com", .str "b.com"])]] =
    .ok ([], [("hackerone", [(.str "Acme", {"a.com", "b.com"})])]) := by decide

/-- C1 witness: the amended theorem applied at concrete inputs, one per
conjunct: an empty run for the platform-absent part, the Acme record for the
emission part, and a record with a truthy list name for the TypeError part. -/
theorem c1_new_program_records_witness :
    (([] : List ChangeRecord) = [])
    ∧ processProgram "hackerone" (some []) []
        (.obj [("name", .str "Acme"), ("targets", .arr [.str "a.com", .str "b.com"])]) =
      .ok (some ⟨"hackerone", .str "Acme",
            extract_targets
              [("name", .str "Acme"), ("targets", .arr [.str "a.com", .str "b.com"])],
            ∅,
            programUrl
              [("name", .str "Acme"), ("targets", .arr [.str "a.com", .str "b.com"])]
              "hackerone",
            true⟩,
          dictSet [] (.str "Acme")
            (extract_targets
              [("name", .str "Acme"), ("targets", .arr [.str "a.com", .str "b.com"])]))
    ∧ processProgram "hackerone" (some []) []
        (.obj [("name", .arr [.str "x"]), ("targets", .arr [.str "a"])]) = .error () :=
  ⟨c1_new_program_records.1 [] "hackerone" [] [] [("hackerone", [])]
      (by decide) (by decide),
   c1_new_program_records.2.1 "hackerone" [] []
      [("name", .str "Acme"), ("targets", .arr [.str "a.com", .str "b.com"])]
      (.str "Acme") (by decide) (by decide) (by decide) (by decide),
   c1_new_program_records.2.2.1 "hackerone" (some []) []
      [("name", .arr [.str "x"]), ("targets", .arr [.str "a"])]
      (.arr [.str "x"]) (by decide) (by decide)⟩

/-- C2 (amended): `load_state` returns the empty mapping when no state file
exists and the parsed mapping when the file parses as JSON; a file that fails
to parse makes `load_state` propagate the parse error instead of returning an
empty mapping. -/
theorem c2_load_state_behaviour :
    load_state none = .ok (.obj [])
    ∧ (∀ (s : String) (j : JVal), json_loads s = .ok j → load_state (some s) = .ok j)
    ∧ load_state (some "\x7b\"hackerone\": \x7b\"Acme\": [\"a.com\", \"b.com\"]\x7d\x7d") =
        .ok (.obj [("hackerone", .obj [("Acme", .arr [.str "a.com", .str "b.com"])])]) :=
  ⟨rfl, fun _ _ h => h, by rfl⟩

/-- C2 counterexample: an existing state file whose contents are not JSON
makes `load_state` raise (propagate the parse error); it does not return the
empty mapping as the claim states. -/
theorem c2_claim_counterexample :
    load_state (some "not json") = .error () := by rfl

/-- C2 witness: the amended theorem applied at a concrete parseable file. -/
theorem c2_load_state_behaviour_witness :
    json_loads "\x7b\"a\": []\x7d" = .ok (.obj [("a", .arr [])])
    ∧ load_state (some "\x7b\"a\": []\x7d") = .ok (.obj [("a", .arr [])]) :=
  ⟨by rfl,
   c2_load_state_behaviour.2.1 "\x7b\"a\": []\x7d" (.obj [("a", .arr [])]) (by rfl)⟩

/-- C3 (amended): records that are JSON objects whose resolved name (when one
resolves) is hashable never raise, however malformed — falsy or missing name
fields skip the record, ill-typed targets yield an empty set — so
`compare_programs` succeeds on such data; a record that is not an object
raises AttributeError at `program.get`, and an object whose truthy name is a
list or dict raises TypeError at the `current_state[program_name]`
assignment.  The concrete conjuncts show two malformed object records being
tolerated and an unhashable-name record raising. -/
theorem c3_object_records_tolerated :
    (∀ (prev : PState) (pl : String) (data : List JVal),
      (∀ p ∈ data, ∃ fields, p = .obj fields) →
      (∀ fields nm, (JVal.obj fields) ∈ data → resolveName fields = some nm →
        hashable nm = true) →
      ∃ out, compare_programs prev pl data = .ok out)
    ∧ compare_programs [] "hackerone"
        [.obj [("name", .bool false)], .obj [("name", .str "X"), ("targets", .str "oops")]] =
      .ok ([], [("hackerone", [(.str "X", ∅)])])
    ∧ compare_programs [] "hackerone" [.obj [("name", .arr [.str "x"])]] = .error () := by
  refine ⟨?_, by decide, by decide⟩
  intro prev pl data hobj hhash
  obtain ⟨⟨chs, snap⟩, h⟩ := goCompare_ok_of_objs pl (dictGet prev pl) data [] hobj hhash
  exact ⟨(chs, dictSet prev pl snap), by unfold compare_programs; rw [h]⟩

/-- C3 counterexample: a record that is not a JSON object (here a bare
string) raises — Python hits `AttributeError` at `program.get` — so the
exception propagates out of `compare_programs`, falsifying the claim. -/
theorem c3_claim_counterexample :
    compare_programs [] "hackerone" [.str "bad"] = .error () := by decide

/-- C3 witness: the amended theorem applied at concrete object records with a
hashable string name. -/
theorem c3_object_records_tolerated_witness :
    (∀ p ∈ [JVal.obj [("name", JVal.str "X")]], ∃ fields, p = JVal.obj fields)
    ∧ (∀ fields nm, (JVal.obj fields) ∈ [JVal.obj [("name", JVal.str "X")]] →
        resolveName fields = some nm → hashable nm = true)
    ∧ ∃ out, compare_programs [] "p" [.obj [("name", .str "X")]] = .ok out :=
  ⟨by intro p hp; fin_cases hp; exact ⟨_, rfl⟩,
   by
    intro fields nm hf hn
    fin_cases hf
    rw [show resolveName [("name", JVal.str "X")] = some (JVal.str "X") from by decide] at hn
    cases hn
    rfl,
   c3_object_records_tolerated.1 [] "p" [.obj [("name", .str "X")]]
     (by intro p hp; fin_cases hp; exact ⟨_, rfl⟩)
     (by
      intro fields nm hf hn
      fin_cases hf
      rw [show resolveName [("name", JVal.str "X")] = some (JVal.str "X") from by decide] at hn
      cases hn
      rfl)⟩

/-- C4: for an existing program (resolved name present in the platform's
prior snapshot with stored TargetSet A), any emitted ChangeRecord has
`added = B \ A` and `removed = A \ B`, where B is the currently extracted
TargetSet, and the two sets are disjoint. -/
theorem c4_diff_set_algebra (platform : String) (snap st st2 : Snapshot)
    (fields : List (String × JVal)) (nm : JVal) (A : TargetSet) (r : ChangeRecord)
    (hnm : resolveName fields = some nm) (hA : dictGet snap nm = some A)
    (hrun : processProgram platform (some snap) st (.obj fields) = .ok (some r, st2)) :
    r.added = extract_targets fields \ A ∧
    r.removed = A \ extract_targets fields ∧
    r.added ∩ r.removed = ∅ := by
  simp only [processProgram, hnm] at hrun
  cases hh : hashable nm with
  | false => rw [hh] at hrun; simp at hrun
  | true =>
  simp only [hh, if_true, hA] at hrun
  by_cases h : extract_targets fields \ A ≠ ∅ ∨ A \ extract_targets fields ≠ ∅
  · simp only [if_pos h] at hrun
    obtain ⟨hr, -⟩ := Prod.mk.injEq .. ▸ Except.ok.inj hrun
    cases Option.some.inj hr
    refine ⟨rfl, rfl, ?_⟩
    ext x
    simp [Finset.mem_sdiff]
    tauto
  · simp only [if_neg h] at hrun
    cases hrun

/-- C4 witness: the theorem applied at a concrete existing program. -/
theorem c4_diff_set_algebra_witness :
    resolveName [("name", .str "A"), ("targets", .arr [.str "b"])] = some (.str "A")
    ∧ dictGet [((JVal.str "A"), ({"a"} : TargetSet))] (.str "A") = some {"a"}
    ∧ ((⟨"p", .str "A", {"b"}, {"a"}, .str "https://p.com", false⟩ : ChangeRecord).added =
          extract_targets [("name", .str "A"), ("targets", .arr [.str "b"])] \ {"a"}
      ∧ (⟨"p", .str "A", {"b"}, {"a"}, .str "https://p.com", false⟩ : ChangeRecord).removed =
          {"a"} \ extract_targets [("name", .str "A"), ("targets", .arr [.str "b"])]
      ∧ (⟨"p", .str "A", {"b"}, {"a"}, .str "https://p.com", false⟩ : ChangeRecord).added ∩
          (⟨"p", .str "A", {"b"}, {"a"}, .str "https://p.com", false⟩ : ChangeRecord).removed
          = ∅) :=
  ⟨by decide, by decide,
   c4_diff_set_algebra "p" [(.str "A", {"a"})] [] [(.str "A", {"b"})]
     [("name", .str "A"), ("targets", .arr [.str "b"])] (.str "A") {"a"}
     ⟨"p", .str "A", {"b"}, {"a"}, .str "https://p.com", false⟩
     (by decide) (by decide) (by decide)⟩

/-- C5 (amended): an existing program — resolved name stored in the prior
snapshot, hence hashable — whose current TargetSet equals the stored one
produces no ChangeRecord; and a second `compare_programs` run on unchanged
data, starting from the state the first run produced, yields zero
ChangeRecords provided the resolved program names of the data are pairwise
distinct (with duplicate names the second run can emit records, see the
counterexample). -/
theorem c5_no_diff_and_idempotence :
    (∀ (pl : String) (snap st : Snapshot) (fields : List (String × JVal)) (nm : JVal),
      resolveName fields = some nm → hashable nm = true →
      dictGet snap nm = some (extract_targets fields) →
      processProgram pl (some snap) st (.obj fields) =
        .ok (none, dictSet st nm (extract_targets fields)))
    ∧ (∀ (prev : PState) (pl : String) (data : List JVal)
        (chs1 : List ChangeRecord) (st1 : PState),
      compare_programs prev pl data = .ok (chs1, st1) →
      (resolvedNames data).Nodup →
      compare_programs st1 pl data = .ok ([], st1)) := by
  refine ⟨fun pl snap st fields nm hn hh hl =>
    processProgram_no_diff pl snap st fields nm hn hh hl, ?_⟩
  intro prev pl data chs1 st1 h1 hnd
  unfold compare_programs at h1 ⊢
  cases hg : goCompare pl (dictGet prev pl) data [] with
  | error e => rw [hg] at h1; cases h1
  | ok out =>
    obtain ⟨chsA, snap⟩ := out
    rw [hg] at h1
    simp only [] at h1
    obtain ⟨hc, hstate⟩ := Prod.mk.injEq .. ▸ Except.ok.inj h1
    have hobjs := goCompare_ok_objs pl (dictGet prev pl) data [] (chsA, snap) hg
    have hhash : ∀ fields nm, (JVal.obj fields) ∈ data → resolveName fields = some nm →
        hashable nm = true :=
      fun f nm hf hn =>
        goCompare_ok_hashable pl (dictGet prev pl) data [] (chsA, snap) hg f nm hf hn
    have hchar := goCompare_snapshot pl (dictGet prev pl) data [] chsA snap hg
    have hsnap : ∀ fields nm, (JVal.obj fields) ∈ data → resolveName fields = some nm →
        dictGet snap nm = some (extract_targets fields) := by
      intro f nm hf hn
      have hlr := lastResolve_of_nodup data f nm hnd hf hn
      have hx := hchar nm
      rw [hlr] at hx
      exact hx
    obtain ⟨snapOut, hrun2⟩ := goCompare_second_run pl snap data [] hobjs hhash hsnap
    obtain ⟨chsB, hrun2'⟩ :=
      goCompare_indep pl (dictGet prev pl) (some snap) data [] chsA snap hg
    rw [hrun2] at hrun2'
    obtain ⟨hB, hsnapeq⟩ := Prod.mk.injEq .. ▸ Except.ok.inj hrun2'
    have hlook : dictGet st1 pl = some snap := by
      rw [← hstate]; exact dictGet_dictSet_self ..
    subst hsnapeq
    rw [hlook, hrun2]
    simp only []
    rw [← hstate, dictSet_dictSet]

/-- C5 counterexample: two records with the same resolved name `A` and
different targets.  The first run (prior state empty) emits nothing and
stores `A` with the last occurrence's (empty) targets; the second run on the
very same data emits one ChangeRecord, so running twice on unchanged data is
not idempotent. -/
theorem c5_claim_counterexample :
    compare_programs [] "p"
      [.obj [("name", .str "A"), ("targets", .arr [.str "x"])],
       .obj [("name", .str "A"), ("targets", .arr [])]]
      = .ok ([], [("p", [(.str "A", ∅)])])
    ∧ compare_programs [("p", [(.str "A", ∅)])] "p"
      [.obj [("name", .str "A"), ("targets", .arr [.str "x"])],
       .obj [("name", .str "A"), ("targets", .arr [])]]
      = .ok ([⟨"p", .str "A", {"x"}, ∅, .str "https://p.com", false⟩],
             [("p", [(.str "A", ∅)])]) := ⟨by decide, by decide⟩

/-- C5 witness: the amended theorem applied concretely: the per-program part
at a stored program with unchanged targets, and the idempotence part at a
single-program platform whose second run yields zero ChangeRecords and the
same state. -/
theorem c5_no_diff_and_idempotence_witness :
    resolveName [("name", .str "A"), ("targets", .arr [.str "x"])] = some (.str "A")
    ∧ processProgram "p" (some [(.str "A", {"x"})]) []
        (.obj [("name", .str "A"), ("targets", .arr [.str "x"])]) =
      .ok (none, dictSet [] (.str "A")
        (extract_targets [("name", .str "A"), ("targets", .arr [.str "x"])]))
    ∧ compare_programs [] "p" [.obj [("name", .str "A"), ("targets", .arr [.str "x"])]]
      = .ok ([], [("p", [(.str "A", {"x"})])])
    ∧ (resolvedNames [JVal.obj [("name", .str "A"), ("targets", .arr [.str "x"])]]).Nodup
    ∧ compare_programs [("p", [(.str "A", {"x"})])] "p"
        [.obj [("name", .str "A"), ("targets", .arr [.str "x"])]]
      = .ok ([], [("p", [(.str "A", {"x"})])]) :=
  ⟨by decide,
   c5_no_diff_and_idempotence.1 "p" [(.str "A", {"x"})] []
     [("name", .str "A"), ("targets", .arr [.str "x"])] (.str "A")
     (by decide) (by decide) (by decide),
   by decide, by decide,
   c5_no_diff_and_idempotence.2 [] "p"
     [.obj [("name", .str "A"), ("targets", .arr [.str "x"])]]
     [] [("p", [(.str "A", {"x"})])] (by decide) (by decide)⟩

/-- C6: after `compare_programs` processes a platform, the platform's state
entry is replaced wholesale by the newly built snapshot: each name maps to
the extracted TargetSet of the last current record resolving to it, names
not resolved by any current record (in particular programs only present in
the old snapshot) are absent, and every emitted ChangeRecord names a program
from the current data — so no record is generated for a dropped program. -/
theorem c6_snapshot_replaced (prev : PState) (pl : String) (data : List JVal)
    (chs : List ChangeRecord) (st' : PState)
    (h : compare_programs prev pl data = .ok (chs, st')) :
    ∃ snap, st' = dictSet prev pl snap
      ∧ (∀ nm, dictGet snap nm = (lastResolve data nm).map extract_targets)
      ∧ (∀ nm, nm ∉ resolvedNames data → dictGet snap nm = none)
      ∧ (∀ r ∈ chs, r.program ∈ resolvedNames data) := by
  unfold compare_programs at h
  cases hg : goCompare pl (dictGet prev pl) data [] with
  | error e => rw [hg] at h; cases h
  | ok out =>
    obtain ⟨chsA, snap⟩ := out
    rw [hg] at h
    simp only [] at h
    obtain ⟨hc, hstate⟩ := Prod.mk.injEq .. ▸ Except.ok.inj h
    subst hc
    refine ⟨snap, hstate.symm, ?_, ?_, ?_⟩
    · intro nm
      have hx := goCompare_snapshot pl (dictGet prev pl) data [] _ snap hg nm
      cases hlr : lastResolve data nm <;> rw [hlr] at hx <;> simpa using hx
    · intro nm hnm
      have hx := goCompare_snapshot pl (dictGet prev pl) data [] _ snap hg nm
      rw [lastResolve_eq_none nm data hnm] at hx
      simpa using hx
    · exact goCompare_record_names pl (dictGet prev pl) data [] _ _ hg

/-- C6 witness: the theorem applied at a concrete run in which the old
snapshot held a program `Old` that the current fetch no longer contains. -/
theorem c6_snapshot_replaced_witness :
    compare_programs [("p", [(.str "Old", {"o"})])] "p"
        [.obj [("name", .str "A"), ("targets", .arr [.str "x"])]] =
      .ok ([⟨"p", .str "A", {"x"}, ∅, .str "https://p.com", true⟩],
           [("p", [(.str "A", {"x"})])])
    ∧ ∃ snap, ([("p", [((JVal.str "A"), ({"x"} : TargetSet))])] : PState) =
        dictSet [("p", [(.str "Old", {"o"})])] "p" snap
      ∧ (∀ nm, dictGet snap nm =
          (lastResolve [JVal.obj [("name", .str "A"), ("targets", .arr [.str "x"])]] nm).map
            extract_targets)
      ∧ (∀ nm, nm ∉ resolvedNames
            [JVal.obj [("name", .str "A"), ("targets", .arr [.str "x"])]] →
          dictGet snap nm = none)
      ∧ (∀ r ∈ [(⟨"p", .str "A", {"x"}, ∅, .str "https://p.com", true⟩ : ChangeRecord)],
          r.program ∈ resolvedNames
            [JVal.obj [("name", .str "A"), ("targets", .arr [.str "x"])]]) :=
  ⟨by decide,
   c6_snapshot_replaced [("p", [(.str "Old", {"o"})])] "p"
     [.obj [("name", .str "A"), ("targets", .arr [.str "x"])]]
     [⟨"p", .str "A", {"x"}, ∅, .str "https://p.com", true⟩]
     [("p", [(.str "A", {"x"})])] (by decide)⟩

/-- C7: an item yields an identifier exactly when it is a string (verbatim)
or a dict whose fields `target`, `endpoint`, `asset_identifier` — checked in
that order — contain a truthy value, the first match being coerced with
`str`; items of any other shape are skipped; and the mixed web/mobile
scenario extracts exactly the two expected identifiers. -/
theorem c7_item_extraction :
    (∀ s : String, extractItem (.str s) = some s)
    ∧ (∀ (fields : List (String × JVal)) (v : JVal),
        getTruthy fields "target" = some v →
        extractItem (.obj fields) = some (pyStr v))
    ∧ (∀ (fields : List (String × JVal)) (v : JVal),
        getTruthy fields "target" = none → getTruthy fields "endpoint" = some v →
        extractItem (.obj fields) = some (pyStr v))
    ∧ (∀ (fields : List (String × JVal)) (v : JVal),
        getTruthy fields "target" = none → getTruthy fields "endpoint" = none →
        getTruthy fields "asset_identifier" = some v →
        extractItem (.obj fields) = some (pyStr v))
    ∧ (∀ fields : List (String × JVal),
        getTruthy fields "target" = none → getTruthy fields "endpoint" = none →
        getTruthy fields "asset_identifier" = none → extractItem (.obj fields) = none)
    ∧ (extractItem .null = none ∧ (∀ b, extractItem (.bool b) = none)
        ∧ (∀ n : Int, extractItem (.num n) = none)
        ∧ (∀ xs, extractItem (.arr xs) = none))
    ∧ extract_targets
        [("targets", .obj [("web", .arr [.obj [("asset_identifier", .str "x.com")]]),
                           ("mobile", .arr [.str "y.apk"])])]
        = {"x.com", "y.apk"} := by
  refine ⟨fun s => rfl, ?_, ?_, ?_, ?_,
    ⟨rfl, fun b => rfl, fun n => rfl, fun xs => rfl⟩, by decide⟩
  · intro fields v ht
    simp [extractItem, ht, Option.orElse]
  · intro fields v ht he
    simp [extractItem, ht, he, Option.orElse]
  · intro fields v ht he ha
    simp [extractItem, ht, he, ha, Option.orElse]
  · intro fields ht he ha
    simp [extractItem, ht, he, ha, Option.orElse]

/-- C7 witness: the theorem applied at concrete items, one per priority
level, including a falsy `target` that falls through to `endpoint` and a
numeric `asset_identifier` coerced with `str`. -/
theorem c7_item_extraction_witness :
    getTruthy [("target", .str "t.com")] "target" = some (.str "t.com")
    ∧ extractItem (.obj [("target", .str "t.com")]) = some (pyStr (.str "t.com"))
    ∧ getTruthy [("target", .str ""), ("endpoint", .str "e.com")] "target" = none
    ∧ extractItem (.obj [("target", .str ""), ("endpoint", .str "e.com")]) =
        some (pyStr (.str "e.com"))
    ∧ getTruthy [("asset_identifier", .num 7)] "asset_identifier" = some (.num 7)
    ∧ extractItem (.obj [("asset_identifier", .num 7)]) = some (pyStr (.num 7)) :=
  ⟨by decide,
   c7_item_extraction.2.1 [("target", .str "t.com")] (.str "t.com") (by decide),
   by decide,
   c7_item_extraction.2.2.1 [("target", .str ""), ("endpoint", .str "e.com")]
     (.str "e.com") (by decide) (by decide),
   by decide,
   c7_item_extraction.2.2.2.1 [("asset_identifier", .num 7)] (.num 7)
     (by decide) (by decide) (by decide)⟩

/-- C8: `extract_targets` always yields a duplicate-free set, and its value
is independent of the order of items — both for a flat `targets` list and
for the categories of a `targets` dict. -/
theorem c8_extraction_order_independent :
    (∀ program : List (String × JVal), (extract_targets program).val.Nodup)
    ∧ (∀ items items' : List JVal, items.Perm items' →
        extractFromList items = extractFromList items')
    ∧ (∀ (rest : List (String × JVal)) (items items' : List JVal), items.Perm items' →
        extract_targets (("targets", .arr items) :: rest) =
          extract_targets (("targets", .arr items') :: rest))
    ∧ (∀ (rest cats cats' : List (String × JVal)), cats.Perm cats' →
        extract_targets (("targets", .obj cats) :: rest) =
          extract_targets (("targets", .obj cats') :: rest)) := by
  have hlist : ∀ items items' : List JVal, items.Perm items' →
      extractFromList items = extractFromList items' := by
    intro items items' hp
    exact List.toFinset_eq_of_perm _ _ (hp.filterMap extractItem)
  refine ⟨fun program => (extract_targets program).nodup, hlist, ?_, ?_⟩
  · intro rest items items' hp
    simp only [extract_targets, dictGet, if_pos rfl]
    exact hlist items items' hp
  · intro rest cats cats' hp
    simp only [extract_targets, dictGet, if_pos rfl]
    refine hp.foldl_eq' ?_ ∅
    intro x _ y _ z
    obtain ⟨k1, v1⟩ := x
    obtain ⟨k2, v2⟩ := y
    cases v1 <;> cases v2 <;> first | rfl | exact Finset.union_right_comm ..

/-- C8 witness: the theorem applied at concrete permutations of a flat
target list and of the categories of a targets dict. -/
theorem c8_extraction_order_independent_witness :
    ([JVal.str "a", JVal.str "b"] : List JVal).Perm [JVal.str "b", JVal.str "a"]
    ∧ extractFromList [JVal.str "a", JVal.str "b"] =
        extractFromList [JVal.str "b", JVal.str "a"]
    ∧ extract_targets
        [("targets", JVal.obj [("w", .arr [.str "a"]), ("m", .arr [.str "b"])])] =
      extract_targets
        [("targets", JVal.obj [("m", .arr [.str "b"]), ("w", .arr [.str "a"])])] :=
  ⟨by decide,
   c8_extraction_order_independent.2.1 [JVal.str "a", JVal.str "b"]
     [JVal.str "b", JVal.str "a"] (by decide),
   c8_extraction_order_independent.2.2.2 []
     [("w", .arr [.str "a"]), ("m", .arr [.str "b"])]
     [("m", .arr [.str "b"]), ("w", .arr [.str "a"])] (by decide)⟩

/-- C9: a program whose resolved name is absent from the platform's prior
snapshot (or whose platform has no prior snapshot at all) and whose current
TargetSet is empty produces no ChangeRecord: with a hashable name the loop
body completes normally and emits nothing; with a truthy list or dict name
Python raises TypeError before any record could be appended — in either case
new-but-empty programs are silent. -/
theorem c9_new_empty_program_silent (pl : String) (prevPlat : Option Snapshot)
    (st : Snapshot) (fields : List (String × JVal)) (nm : JVal)
    (hn : resolveName fields = some nm) (hcur : extract_targets fields = ∅)
    (habs : prevPlat = none ∨ ∃ snap, prevPlat = some snap ∧ dictGet snap nm = none) :
    (hashable nm = true →
      processProgram pl prevPlat st (.obj fields) = .ok (none, dictSet st nm ∅))
    ∧ (hashable nm = false →
      processProgram pl prevPlat st (.obj fields) = .error ()) := by
  constructor
  · intro hh
    rcases habs with rfl | ⟨snap, rfl, hl⟩
    · simp only [processProgram, hn, hh, if_true, hcur]
    · simp only [processProgram, hn, hh, if_true, hl, hcur]
      rw [if_neg (by simp)]
  · intro hh
    simp [processProgram, hn, hh]

/-- C9 witness: the theorem applied at a concrete program without targets
(hashable name, normal silence) and at one whose name is a truthy list
(TypeError, still no record). -/
theorem c9_new_empty_program_silent_witness :
    resolveName [("name", .str "Empty")] = some (.str "Empty")
    ∧ extract_targets [("name", .str "Empty")] = ∅
    ∧ processProgram "p" (some []) [] (.obj [("name", .str "Empty")]) =
        .ok (none, dictSet [] (.str "Empty") ∅)
    ∧ processProgram "p" (some []) [] (.obj [("name", .arr [.str "x"])]) = .error () :=
  ⟨by decide, by decide,
   (c9_new_empty_program_silent "p" (some []) [] [("name", .str "Empty")]
     (.str "Empty") (by decide) (by decide) (Or.inr ⟨[], rfl, by decide⟩)).1 (by decide),
   (c9_new_empty_program_silent "p" (some []) [] [("name", .arr [.str "x"])]
     (.arr [.str "x"]) (by decide) (by decide) (Or.inr ⟨[], rfl, by decide⟩)).2 (by decide)⟩

/-- C10: `fetch_program_data` yields `[]` both on a fetch error and on a
successful fetch of an empty JSON array; and whenever the fetch for a
platform yields `[]`, a whole `run` leaves that platform's state entry
exactly as it was — an empty fetch never wipes prior state. -/
theorem c10_empty_fetch_frame :
    fetch_program_data (.error ()) = []
    ∧ fetch_program_data (.ok []) = []
    ∧ (∀ (fetchOutcome : String → Except Unit (List JVal)) (st : PState) (p : String)
        (chs : List ChangeRecord) (stF : PState),
      fetch_program_data (fetchOutcome p) = [] →
      run fetchOutcome st = .ok (chs, stF) →
      dictGet stF p = dictGet st p) := by
  refine ⟨rfl, rfl, ?_⟩
  intro fetchOutcome st p chs stF hfp hrun
  exact runPlatforms_frame (fun q => fetch_program_data (fetchOutcome q)) p hfp
    platforms st chs stF hrun

/-- C10 witness: the theorem applied at a run whose hackerone fetch fails
while the bugcrowd fetch succeeds and changes state: the hackerone entry,
with its non-empty prior snapshot, is untouched. -/
theorem c10_empty_fetch_frame_witness :
    fetch_program_data ((fun q => if q = "bugcrowd"
        then Except.ok [JVal.obj [("name", .str "B"), ("targets", .arr [.str "y"])]]
        else Except.error ()) "hackerone") = []
    ∧ run (fun q => if q = "bugcrowd"
        then Except.ok [JVal.obj [("name", .str "B"), ("targets", .arr [.str "y"])]]
        else Except.error ())
        [("hackerone", [(.str "A", {"x"})]), ("bugcrowd", [(.str "B", ∅)])]
      = .ok ([⟨"bugcrowd", .str "B", {"y"}, ∅, .str "https://bugcrowd.com", false⟩],
             [("hackerone", [(.str "A", {"x"})]), ("bugcrowd", [(.str "B", {"y"})])])
    ∧ dictGet [("hackerone", [((JVal.str "A"), ({"x"} : TargetSet))]),
               ("bugcrowd", [(.str "B", {"y"})])] "hackerone"
      = dictGet [("hackerone", [((JVal.str "A"), ({"x"} : TargetSet))]),
                 ("bugcrowd", [(.str "B", ∅)])] "hackerone" :=
  ⟨by decide, by decide,
   c10_empty_fetch_frame.2.2
     (fun q => if q = "bugcrowd"
        then Except.ok [JVal.obj [("name", .str "B"), ("targets", .arr [.str "y"])]]
        else Except.error ())
     [("hackerone", [(.str "A", {"x"})]), ("bugcrowd", [(.str "B", ∅)])]
     "hackerone"
     [⟨"bugcrowd", .str "B", {"y"}, ∅, .str "https://bugcrowd.com", false⟩]
     [("hackerone", [(.str "A", {"x"})]), ("bugcrowd", [(.str "B", {"y"})])]
     (by decide) (by decide)⟩
